import Mathlib

structure MessageJobData where
  threadId : String
  message : String
  timestamp : Nat
  instructions : Option String
deriving Repr, DecidableEq

/-- A job as the BullMQ queue stores it: its job id plus its data. -/
structure QJob where
  id : String
  data : MessageJobData
deriving Repr, DecidableEq

/-- Redis string keys: an association list from key to stored value. -/
abbrev KV := List (String × String)

/-- `GET k`. -/
def kvGet (kv : KV) (k : String) : Option String :=
  (kv.find? (fun p => p.1 == k)).map (fun p => p.2)

/-- `DEL k`. -/
def kvDel (kv : KV) (k : String) : KV :=
  kv.filter (fun p => !(p.1 == k))

/-- `SET k v` (unconditional). -/
def kvSet (kv : KV) (k v : String) : KV :=
  (k, v) :: kvDel kv k

/-- The whole mutable state the component touches: the BullMQ job store
(job id to data), the per-thread job-id index sets, and the plain Redis
string keys (locks and `last_processed` markers). -/
structure SysState where
  queue : List (String × MessageJobData)
  threadJobs : List (String × List String)
  kv : KV
deriving Repr, DecidableEq

/-- `queue.getJob(id)`: `none` when the job was already removed. -/
def queueGetJob (s : SysState) (id : String) : Option QJob :=
  (s.queue.find? (fun p => p.1 == id)).map (fun p => QJob.mk p.1 p.2)

/-- `job.remove()` applied to each id of `ids`. -/
def queueRemoveMany (q : List (String × MessageJobData)) (ids : List String) :
    List (String × MessageJobData) :=
  q.filter (fun p => !(ids.contains p.1))

/-- `SMEMBERS {prefix}:threadJobs:{t}`: the indexed job ids of thread `t`,
in the set's own iteration order. -/
def sMembers (s : SysState) (t : String) : List String :=
  ((s.threadJobs.find? (fun p => p.1 == t)).map (fun p => p.2)).getD []

/-- `SADD {prefix}:threadJobs:{t} id`. -/
def sAddIndex (s : SysState) (t id : String) : SysState :=
  if (s.threadJobs.find? (fun p => p.1 == t)).isSome then
    { s with threadJobs := s.threadJobs.map (fun p =>
        if p.1 == t then (p.1, if p.2.contains id then p.2 else p.2 ++ [id]) else p) }
  else
    { s with threadJobs := s.threadJobs ++ [(t, [id])] }

/-- `SREM {prefix}:threadJobs:{t} ids`. -/
def sRemIndex (s : SysState) (t : String) (ids : List String) : SysState :=
  { s with threadJobs := s.threadJobs.map (fun p =>
      if p.1 == t then (p.1, p.2.filter (fun i => !(ids.contains i))) else p) }

/-- The configuration options the modelled operations read
(`AssistantMessageQueueOptions` with the constructor's defaults). -/
structure QueueOptions where
  queuePrefix : String := "assistant"
  defaultInstructions : String := "Reply to all messages logically."
  lockDuration : Nat := 300000
  messageDelay : Nat := 10000
deriving Repr, DecidableEq

/-- Key of the per-thread processing lock. -/
def lockKeyOf (opts : QueueOptions) (t : String) : String :=
  opts.queuePrefix ++ ":lock_thread_" ++ t

/-- Key of the per-thread high-water-mark marker. -/
def lastProcessedKey (opts : QueueOptions) (t : String) : String :=
  opts.queuePrefix ++ ":last_processed_" ++ t

/-- Little-endian decimal digits, with explicit fuel (first argument) so
that the recursion is structural; `decDigitsLE` instantiates the fuel with
a sufficient amount. -/
def decDigitsAux : Nat → Nat → List Nat
  | _, 0 => []
  | 0, _ + 1 => []
  | fuel + 1, n + 1 => ((n + 1) % 10) :: decDigitsAux fuel ((n + 1) / 10)

/-- Little-endian decimal digits of a natural number (empty for 0). -/
def decDigitsLE (n : Nat) : List Nat := decDigitsAux n n

/-- Big-endian decimal digits, with `0` rendered as the single digit 0. -/
def decReprD (n : Nat) : List Nat :=
  if n = 0 then [0] else (decDigitsLE n).reverse

/-- The character of one decimal digit. -/
def digitChar (d : Nat) : Char := Char.ofNat (48 + d)

/-- Decimal rendering of a natural number, as JS template interpolation
prints the (integral) timestamp. -/
def natToDecimal (n : Nat) : String :=
  String.mk ((decReprD n).map digitChar)

/-- The deterministic job id `thread_{threadId}_{timestamp}` built by
`addMessageToThread`. -/
def messageJobId (threadId : String) (timestamp : Nat) : String :=
  "thread_" ++ threadId ++ "_" ++ natToDecimal timestamp

/-- `addMessageToThread(threadId, message, instructions?)` at time `now`:
adds the job under its deterministic id (BullMQ keeps the existing job when
the id is already present) and indexes the id in the thread's set.
Returns the new state and the job id. -/
def addMessageToThread (opts : QueueOptions) (now : Nat) (s : SysState)
    (threadId message : String) (instructions : Option String) :
    SysState × String :=
  let jobId := messageJobId threadId now
  let data : MessageJobData := ⟨threadId, message, now, instructions⟩
  let s1 :=
    if (queueGetJob s jobId).isSome then s
    else { s with queue := s.queue ++ [(jobId, data)] }
  (sAddIndex s1 threadId jobId, jobId)

/-- Chunk splitting with explicit fuel (first argument) so that the
recursion is structural; `chunksOf` instantiates the fuel with the list's
length, which suffices for every positive chunk size. -/
def chunksOfAux : Nat → Nat → List α → List (List α)
  | _, _, [] => []
  | 0, _, x :: xs => [x :: xs]
  | fuel + 1, n, x :: xs =>
    if n = 0 then [x :: xs]
    else (x :: xs).take n :: chunksOfAux fuel n ((x :: xs).drop n)

/-- Splitting a list into consecutive chunks of at most `n` elements
(the loop `for (let i = 0; i < jobIds.length; i += batchSize)`). -/
def chunksOf (n : Nat) (l : List α) : List (List α) := chunksOfAux l.length n l

/-- `getJobsByThreadId(threadId)`: fetches the indexed ids from the queue
in batches of 20 and keeps the jobs that still exist (`filter(Boolean)`).
No sorting happens here; callers sort. -/
def getJobsByThreadId (s : SysState) (t : String) : List QJob :=
  let jobIds := sMembers s t
  ((chunksOf 20 jobIds).map (fun batch =>
    (batch.map (queueGetJob s)).reduceOption)).flatten

/-- The ascending-timestamp order the source's
`sort((a, b) => a.data.timestamp - b.data.timestamp)` sorts by. -/
def tsLE (a b : QJob) : Prop := a.data.timestamp ≤ b.data.timestamp

instance : DecidableRel tsLE := fun a b => Nat.decLe a.data.timestamp b.data.timestamp

instance : IsTotal QJob tsLE := ⟨fun a b => Nat.le_total a.data.timestamp b.data.timestamp⟩

instance : IsTrans QJob tsLE := ⟨fun _ _ _ => Nat.le_trans⟩

/-- The in-place `sort((a, b) => a.data.timestamp - b.data.timestamp)`:
a stable ascending sort by timestamp (JS array sort is stable; insertion
sort realises the same function). -/
def sortByTs (l : List QJob) : List QJob := l.insertionSort tsLE

/-- `getNewerJobsByThreadId(threadId, timestamp)`: the thread's live jobs
with timestamp strictly greater than `timestamp`, sorted ascending. -/
def getNewerJobsByThreadId (s : SysState) (t : String) (timestamp : Nat) :
    List QJob :=
  sortByTs ((getJobsByThreadId s t).filter
    (fun j => decide (timestamp < j.data.timestamp)))

/-- `removeJobsFromThreadIndex(threadId, jobIds)`. -/
def removeJobsFromThreadIndex (s : SysState) (t : String)
    (jobIds : List String) : SysState :=
  if jobIds = [] then s else sRemIndex s t jobIds

/-- `releaseLock` of `src/utils/redis-helper.ts`: compare-and-delete, the
key is deleted only when the stored value still equals `lockValue`; the
same logic is inlined in the `finally` block of `processMessages`.
Returns the new key space and whether the lock was released. -/
def releaseLock (kv : KV) (lockKey lockValue : String) : KV × Bool :=
  match kvGet kv lockKey with
  | some v => if v = lockValue then (kvDel kv lockKey, true) else (kv, false)
  | none => (kv, false)

/-- The `finally` block of `processMessages` as a state step. -/
def releaseStep (s : SysState) (lockKey lockValue : String) : SysState :=
  { s with kv := (releaseLock s.kv lockKey lockValue).1 }

/-- `ProcessingResult` of `src/types`. -/
structure ProcessingResult where
  threadId : String
  messagesProcessed : Nat
  processedJobIds : List String
  runId : String
  status : String
deriving Repr, DecidableEq

/-- The ways `processMessages` throws: lock contention, the `TypeError` on
an empty batch (`jobs[jobs.length - 1]` is undefined), or a failed external
run (a non-`completed` terminal status, a timeout, or a handler error). -/
inductive PMError where
  | alreadyProcessing
  | emptyBatch
  | runFailed
deriving Repr, DecidableEq

/-- Everything observable about one `processMessages` call: the state after
the `finally` block, the returned result or thrown error, the combined
message body sent to the external service, the instructions the run was
created with, and the id of the job promoted at the end (if any). -/
structure PMOutput where
  state : SysState
  result : Except PMError ProcessingResult
  sentMessage : Option String
  runInstructions : Option String
  promoted : Option String
deriving Repr

/-- `Math.max(...jobs.map(job => job.data.timestamp))` for a batch. -/
def batchMaxTs (jobs : List QJob) : Nat :=
  (jobs.map (fun j => j.data.timestamp)).foldl max 0

/-- JS `x || d` for an optional string: `undefined` and `""` are falsy. -/
def jsOrStr (x : Option String) (d : String) : String :=
  match x with
  | some s => if s = "" then d else s
  | none => d

/-- The `try` block of `processMessages`, entered after the lock was
acquired on `s`: sort, combine, pick instructions, record the high-water
mark, send the combined message and run it (`runOk` says whether
`waitForRunCompletion` succeeded; `mid` is what other workers wrote to the
shared state while this cycle awaited the run), then on success remove the
batch from the queue and the index and promote the oldest newer job. -/
def pmBody (opts : QueueOptions) (runId : String) (runOk : Bool)
    (mid : SysState → SysState) (s : SysState) (threadId : String)
    (jobs : List QJob) : PMOutput :=
  match jobs with
  | [] => ⟨s, .error .emptyBatch, none, none, none⟩
  | j0 :: _ =>
    let sorted := sortByTs jobs
    let combinedMessage :=
      String.intercalate "\n" (sorted.map (fun j => j.data.message))
    let instructions :=
      jsOrStr (sorted.getLastD j0).data.instructions opts.defaultInstructions
    let maxTimestamp := batchMaxTs jobs
    let mark := kvSet s.kv (lastProcessedKey opts threadId) (natToDecimal maxTimestamp)
    let s1 := { s with kv := mark }
    let s2 := mid s1
    if runOk then
      let jobIds := (jobs.map (fun j => j.id)).filter (fun i => !(i == ""))
      let s3 := { s2 with queue := queueRemoveMany s2.queue (jobs.map (fun j => j.id)) }
      let s4 := removeJobsFromThreadIndex s3 threadId jobIds
      let newer := getNewerJobsByThreadId s4 threadId maxTimestamp
      ⟨s4, .ok ⟨threadId, jobs.length, jobIds, runId, "completed"⟩,
        some combinedMessage, some instructions,
        newer.head?.map (fun j => j.id)⟩
    else
      ⟨s2, .error .runFailed, some combinedMessage, some instructions, none⟩

/-- `processMessages(threadId, jobs)` at time `now`: acquire the per-thread
lock with `SET NX` (value: the millisecond timestamp as a string), run the
`try` block, and release the lock in the `finally` block with
compare-and-delete on every exit path. -/
def processMessages (opts : QueueOptions) (now : Nat) (runId : String)
    (runOk : Bool) (mid : SysState → SysState) (s : SysState)
    (threadId : String) (jobs : List QJob) : PMOutput :=
  let lockKey := lockKeyOf opts threadId
  let lockValue := natToDecimal now
  match kvGet s.kv lockKey with
  | some _ => ⟨s, .error .alreadyProcessing, none, none, none⟩
  | none =>
    let s0 := { s with kv := kvSet s.kv lockKey lockValue }
    let b := pmBody opts runId runOk mid s0 threadId jobs
    { b with state := releaseStep b.state lockKey lockValue }

/-- What one worker wake-up does with the dispatched job. -/
inductive WorkerAction where
  | noopEmptyIndex
  | delayedRetry (wakeAt : Nat)
  | noopNotOldest
  | processBatch (jobs : List QJob)
deriving Repr, DecidableEq

/-- The dispatch decision of the worker callback installed by
`startWorker`: load the thread's live jobs (no-op when none), reschedule
5 s later when the thread's lock exists, otherwise process the batch only
when the woken job is the head of the timestamp-sorted list. -/
def workerStep (opts : QueueOptions) (now : Nat) (s : SysState)
    (job : QJob) : WorkerAction :=
  let threadId := job.data.threadId
  let relatedJobs := getJobsByThreadId s threadId
  if relatedJobs = [] then .noopEmptyIndex
  else
    let sorted := sortByTs relatedJobs
    if (kvGet s.kv (lockKeyOf opts threadId)).isSome then
      .delayedRetry (now + 5000)
    else
      match sorted.head? with
      | none => .noopEmptyIndex
      | some j0 => if j0.id = job.id then .processBatch sorted else .noopNotOldest

/-- One pending tool invocation reported by the external service. -/
structure ToolCall where
  id : String
  name : String
  arguments : String
deriving Repr, DecidableEq

/-- One tool output submitted back to the external service. -/
structure ToolOutput where
  toolCallId : String
  output : String
deriving Repr, DecidableEq

/-- One `runs.retrieve` response: the run status and, when present, the
required action's type together with its tool calls. -/
structure PollResponse where
  status : String
  requiredAction : Option (String × List ToolCall)
deriving Repr, DecidableEq

/-- The injected `handleRequiresAction(threadId, runId, toolCalls)`
handler; `Except` models the handler throwing. -/
abbrev ToolHandler :=
  String → String → List ToolCall → Except String (List ToolOutput)

/-- How a `waitForRunCompletion` call ends: return of `"completed"`, the
timeout throw, the `Run ended with status` throw, a handler error
propagating, or the scripted response list running out while the run is
still being polled. -/
inductive WaitOutcome where
  | completedStatus
  | timeoutErr
  | endedWithErr (status : String)
  | handlerErr (e : String)
  | outOfResponses (status : String)
deriving Repr, DecidableEq

/-- Outcome, total elapsed wall-clock time (the sum of the sleeps
performed), and the tool-output submissions made along the way. -/
structure WaitResult where
  outcome : WaitOutcome
  elapsed : ℚ
  submissions : List (String × String × List ToolOutput)
deriving Repr, DecidableEq

/-- `["in_progress", "queued"].includes(status)`. -/
def looping (status : String) : Bool :=
  status == "in_progress" || status == "queued"

/-- `delay = Math.min(delay * 1.5, maxDelay)`. -/
def nextDelay (maxDelay delay : ℚ) : ℚ :=
  min (delay * (3 / 2)) maxDelay

/-- The polling loop of `waitForRunCompletion`, one scripted response per
`runs.retrieve` call. Each iteration: timeout check (strict `>` against
`maxWaitTime`), sleep `delay`, retrieve, handle `requires_action` through
the configured handler (submitting its outputs and resetting the status to
`in_progress`), and grow the delay with `nextDelay`. -/
def waitLoop (handler : Option ToolHandler) (threadId runId : String)
    (maxWaitTime maxDelay : ℚ) :
    List PollResponse → String → ℚ → ℚ →
    List (String × String × List ToolOutput) → WaitResult
  | responses, status, delay, elapsed, subs =>
    if looping status then
      if maxWaitTime < elapsed then ⟨.timeoutErr, elapsed, subs⟩
      else
        match responses with
        | [] => ⟨.outOfResponses status, elapsed, subs⟩
        | r :: rest =>
          let e1 := elapsed + delay
          let d1 := nextDelay maxDelay delay
          if r.status == "requires_action" then
            match handler, r.requiredAction with
            | some h, some (atype, toolCalls) =>
              if atype == "submit_tool_outputs" then
                match h threadId runId toolCalls with
                | .ok toolOutputs =>
                  waitLoop handler threadId runId maxWaitTime maxDelay rest
                    "in_progress" d1 e1 (subs ++ [(threadId, runId, toolOutputs)])
                | .error e => ⟨.handlerErr e, e1, subs⟩
              else
                waitLoop handler threadId runId maxWaitTime maxDelay rest
                  r.status d1 e1 subs
            | _, _ =>
              waitLoop handler threadId runId maxWaitTime maxDelay rest
                r.status d1 e1 subs
          else
            waitLoop handler threadId runId maxWaitTime maxDelay rest
              r.status d1 e1 subs
    else
      if status == "completed" then ⟨.completedStatus, elapsed, subs⟩
      else ⟨.endedWithErr status, elapsed, subs⟩

/-- `waitForRunCompletion(threadId, runId)`: the loop with its hard-coded
configuration (1 s initial delay, 15 s delay cap, 5 min ceiling) started
from status `in_progress`. -/
def waitForRunCompletion (handler : Option ToolHandler)
    (threadId runId : String) (responses : List PollResponse) : WaitResult :=
  waitLoop handler threadId runId 300000 15000 responses "in_progress" 1000 0 []

/-- The delay used by the `k`-th poll iteration: 1000 ms, then repeatedly
`nextDelay` with the 15000 ms cap. -/
def pollDelay : Nat → ℚ
  | 0 => 1000
  | n + 1 => nextDelay 15000 (pollDelay n)

/-!
Specification-layer definitions: named intermediate states of the success
path (to state frame properties), the numeric value of decimal digit
lists (to reason about the lexical order of job ids), and concrete
scenario states used by the witnesses.
-/

def pmMidState (opts : QueueOptions) (mid : SysState → SysState) (s : SysState)
    (t : String) (jobs : List QJob) : SysState :=
  let mark := kvSet s.kv (lastProcessedKey opts t) (natToDecimal (batchMaxTs jobs))
  mid { s with kv := mark }

def pmSuccessState (opts : QueueOptions) (mid : SysState → SysState)
    (s : SysState) (t : String) (jobs : List QJob) : SysState :=
  removeJobsFromThreadIndex
    { pmMidState opts mid s t jobs with
      queue := queueRemoveMany (pmMidState opts mid s t jobs).queue
        (jobs.map (fun j => j.id)) }
    t ((jobs.map (fun j => j.id)).filter (fun i => !(i == "")))

/-- Value of a little-endian digit list. -/
def ofDecLE : List Nat → Nat
  | [] => 0
  | d :: ds => d + 10 * ofDecLE ds

/-- Value of a big-endian digit list. -/
def ofDecBE : List Nat → Nat
  | [] => 0
  | d :: ds => d * 10 ^ ds.length + ofDecBE ds

def exOpts : QueueOptions := {}

def exState0 : SysState := ⟨[], [], []⟩

def exJobA : QJob := ⟨messageJobId "T" 1000, ⟨"T", "hello", 1000, none⟩⟩

def exJobB : QJob := ⟨messageJobId "T" 2000, ⟨"T", "world", 2000, some "be nice"⟩⟩

def exJobEmptyIns : QJob := ⟨messageJobId "T" 2000, ⟨"T", "world", 2000, some ""⟩⟩

def exStateAB : SysState :=
  ((addMessageToThread exOpts 2000
    ((addMessageToThread exOpts 1000 exState0 "T" "hello" none).1)
    "T" "world" (some "be nice")).1)

def exStateABC : SysState :=
  ((addMessageToThread exOpts 5000 exStateAB "T" "late" none).1)

def exStateAE : SysState :=
  (addMessageToThread exOpts 2000
    ((addMessageToThread exOpts 1000 exState0 "T" "hello" none).1)
    "T" "world" (some "")).1

def c8CexState : SysState :=
  ⟨[(messageJobId "T" 2000, ⟨"T", "b", 2000, none⟩),
    (messageJobId "T" 1000, ⟨"T", "a", 1000, none⟩)],
   [("T", [messageJobId "T" 2000, messageJobId "T" 1000])], []⟩

def c6Responses : List PollResponse :=
  List.replicate 24 ⟨"in_progress", none⟩ ++ [⟨"completed", none⟩]

-- counterexample C6

def exToolCall : ToolCall := ⟨"tc1", "getWeather", "{}"⟩

def exToolOutput : ToolOutput := ⟨"tc1", "sunny"⟩

def exHandler : ToolHandler := fun _ _ _ => .ok [exToolOutput]

def exRAResponse : PollResponse :=
  ⟨"requires_action", some ("submit_tool_outputs", [exToolCall])⟩

/-! Helper lemmas about the embedded operations. -/

theorem find?_filter_ne (l : List (String × String)) (k k' : String) (h : k' ≠ k) :
    (l.filter (fun p => !(p.1 == k))).find? (fun p => p.1 == k') =
      l.find? (fun p => p.1 == k') := by
  rw [List.find?_filter]
  congr 1
  funext a
  by_cases ha : a.1 = k'
  · have hak : ¬ a.1 = k := fun hc => h (by rw [← ha, hc])
    simp [ha, hak, h]
  · simp [ha]

theorem kvGet_kvSet_self (kv : KV) (k v : String) :
    kvGet (kvSet kv k v) k = some v := by
  simp [kvGet, kvSet, List.find?_cons]

theorem kvGet_kvDel_self (kv : KV) (k : String) :
    kvGet (kvDel kv k) k = none := by
  have h : (kvDel kv k).find? (fun p => p.1 == k) = none := by
    rw [List.find?_eq_none]
    intro x hx
    rcases List.mem_filter.mp hx with ⟨_, hk⟩
    simpa using hk
  simp [kvGet, h]

theorem kvGet_kvDel_ne (kv : KV) (k k' : String) (h : k' ≠ k) :
    kvGet (kvDel kv k) k' = kvGet kv k' := by
  unfold kvGet kvDel
  rw [find?_filter_ne kv k k' h]

theorem kvGet_kvSet_ne (kv : KV) (k k' v : String) (h : k' ≠ k) :
    kvGet (kvSet kv k v) k' = kvGet kv k' := by
  have hkk : ((k, v).1 == k') = false := by
    simp only [beq_eq_false_iff_ne, ne_eq]
    exact fun hc => h (by simpa using hc.symm)
  unfold kvSet kvGet kvDel
  simp only [List.find?_cons, hkk]
  rw [find?_filter_ne kv k k' h]

theorem find?_queueRemoveMany (q : List (String × MessageJobData))
    (ids : List String) (id : String) (h : id ∈ ids) :
    (queueRemoveMany q ids).find? (fun p => p.1 == id) = none := by
  rw [List.find?_eq_none]
  intro x hx
  rcases List.mem_filter.mp hx with ⟨_, hk⟩
  simp only [beq_iff_eq]
  intro hxe
  rw [hxe] at hk
  simp [h] at hk

theorem sMembers_sRemIndex_self (s : SysState) (t : String) (ids : List String) :
    sMembers (sRemIndex s t ids) t =
      (sMembers s t).filter (fun i => !(ids.contains i)) := by
  unfold sMembers sRemIndex
  simp only
  induction s.threadJobs with
  | nil => rfl
  | cons p tl ih =>
    by_cases hp : p.1 = t
    · simp [List.find?_cons, hp]
    · rw [List.map_cons]
      have hift : (if (p.1 == t) = true
          then (p.1, List.filter (fun i => !ids.contains i) p.2) else p) = p := by
        simp [hp]
      rw [hift]
      rw [List.find?_cons_of_neg _ (by simpa using hp),
          List.find?_cons_of_neg _ (by simpa using hp)]
      exact ih

theorem chunksOfAux_flatten (fuel : Nat) :
    ∀ (n : Nat) (l : List α), n ≠ 0 → l.length ≤ fuel →
      (chunksOfAux fuel n l).flatten = l := by
  induction fuel with
  | zero =>
    intro n l hn hl
    cases l with
    | nil => rfl
    | cons x xs => simp at hl
  | succ fuel ih =>
    intro n l hn hl
    cases l with
    | nil => rfl
    | cons x xs =>
      rw [chunksOfAux]
      rw [if_neg hn]
      rw [List.flatten_cons, ih n ((x :: xs).drop n) hn
        (by simp only [List.length_cons] at hl
            simp only [List.length_drop, List.length_cons]
            omega)]
      exact List.take_append_drop n (x :: xs)

theorem chunksOf_flatten (n : Nat) (l : List α) (hn : n ≠ 0) :
    (chunksOf n l).flatten = l :=
  chunksOfAux_flatten l.length n l hn le_rfl

theorem chunksOfAux_mem_length (fuel : Nat) :
    ∀ (n : Nat) (l c : List α), n ≠ 0 → l.length ≤ fuel →
      c ∈ chunksOfAux fuel n l → c.length ≤ n := by
  induction fuel with
  | zero =>
    intro n l c hn hl hc
    cases l with
    | nil => simp [chunksOfAux] at hc
    | cons x xs => simp at hl
  | succ fuel ih =>
    intro n l c hn hl hc
    cases l with
    | nil => simp [chunksOfAux] at hc
    | cons x xs =>
      rw [chunksOfAux, if_neg hn] at hc
      rcases List.mem_cons.mp hc with hc | hc
      · subst hc
        exact List.length_take_le n (x :: xs)
      · refine ih n ((x :: xs).drop n) c hn ?_ hc
        simp only [List.length_cons] at hl
        simp only [List.length_drop, List.length_cons]
        omega

theorem chunksOf_mem_length (n : Nat) (l : List α) (c : List α) (hn : n ≠ 0)
    (hc : c ∈ chunksOf n l) : c.length ≤ n :=
  chunksOfAux_mem_length l.length n l c hn le_rfl hc

theorem getJobsByThreadId_eq_filterMap (s : SysState) (t : String) :
    getJobsByThreadId s t = (sMembers s t).filterMap (queueGetJob s) := by
  unfold getJobsByThreadId
  simp only
  have hred : ∀ b : List String,
      (b.map (queueGetJob s)).reduceOption = b.filterMap (queueGetJob s) := by
    intro b
    show (b.map (queueGetJob s)).filterMap id = _
    rw [List.filterMap_map]
    rfl
  calc ((chunksOf 20 (sMembers s t)).map (fun b =>
          (b.map (queueGetJob s)).reduceOption)).flatten
      = ((chunksOf 20 (sMembers s t)).map (fun b =>
          b.filterMap (queueGetJob s))).flatten := by
        congr 1
        exact List.map_congr_left (fun b _ => hred b)
    _ = ((chunksOf 20 (sMembers s t)).flatten).filterMap (queueGetJob s) :=
        (List.filterMap_flatten (queueGetJob s) (chunksOf 20 (sMembers s t))).symm
    _ = (sMembers s t).filterMap (queueGetJob s) := by
        rw [chunksOf_flatten 20 (sMembers s t) (by norm_num)]

theorem sortByTs_sorted (l : List QJob) : (sortByTs l).Sorted tsLE :=
  List.sorted_insertionSort tsLE l

theorem sortByTs_perm (l : List QJob) : (sortByTs l).Perm l :=
  List.perm_insertionSort tsLE l

theorem mem_sortByTs (l : List QJob) (a : QJob) : a ∈ sortByTs l ↔ a ∈ l :=
  (sortByTs_perm l).mem_iff

theorem sortByTs_ne_nil (l : List QJob) (h : l ≠ []) : sortByTs l ≠ [] := by
  intro hc
  exact h (List.Perm.eq_nil ((sortByTs_perm l).symm.trans (hc ▸ List.Perm.refl _)))

theorem sortByTs_head_min (l : List QJob) (j : QJob)
    (h : (sortByTs l).head? = some j) :
    ∀ x ∈ l, j.data.timestamp ≤ x.data.timestamp := by
  intro x hx
  have hx' : x ∈ sortByTs l := (mem_sortByTs l x).mpr hx
  have hs := sortByTs_sorted l
  cases hsl : sortByTs l with
  | nil => rw [hsl] at h; simp at h
  | cons a tl =>
    rw [hsl] at h hx' hs
    simp only [List.head?_cons, Option.some.injEq] at h
    subst h
    rcases List.mem_cons.mp hx' with rfl | hxtl
    · exact le_rfl
    · exact (List.sorted_cons.mp hs).1 x hxtl

theorem getLastD_mem (l : List α) (d : α) : l = [] ∨ l.getLastD d ∈ l := by
  induction l generalizing d with
  | nil => exact Or.inl rfl
  | cons a tl ih =>
    right
    rw [List.getLastD_cons]
    rcases ih a with h | h
    · subst h; simp
    · exact List.mem_cons_of_mem a h

theorem sorted_getLastD_max (l : List QJob) (d : QJob) (hs : l.Sorted tsLE) :
    ∀ x ∈ l, x.data.timestamp ≤ (l.getLastD d).data.timestamp := by
  induction l generalizing d with
  | nil => intro x hx; simp at hx
  | cons a tl ih =>
    intro x hx
    rw [List.getLastD_cons]
    rcases List.mem_cons.mp hx with rfl | hxtl
    · rcases getLastD_mem tl x with h | h
      · subst h; simp
      · exact (List.sorted_cons.mp hs).1 _ h
    · exact ih a (List.sorted_cons.mp hs).2 x hxtl

theorem sortByTs_getLastD_strictMax (l : List QJob) (d jm : QJob)
    (hne : l ≠ []) (hjm : jm ∈ l)
    (hmax : ∀ x ∈ l, x ≠ jm → x.data.timestamp < jm.data.timestamp) :
    (sortByTs l).getLastD d = jm := by
  have hsne := sortByTs_ne_nil l hne
  rcases getLastD_mem (sortByTs l) d with h | h
  · exact absurd h hsne
  · have hg : (sortByTs l).getLastD d ∈ l := (mem_sortByTs l _).mp h
    by_cases hgm : (sortByTs l).getLastD d = jm
    · exact hgm
    · have h1 : ((sortByTs l).getLastD d).data.timestamp < jm.data.timestamp :=
        hmax _ hg hgm
      have h2 : jm.data.timestamp ≤ ((sortByTs l).getLastD d).data.timestamp :=
        sorted_getLastD_max (sortByTs l) d (sortByTs_sorted l) jm
          ((mem_sortByTs l jm).mpr hjm)
      omega

theorem processMessages_unlocked (opts : QueueOptions) (now : Nat)
    (runId : String) (runOk : Bool) (mid : SysState → SysState) (s : SysState)
    (t : String) (jobs : List QJob)
    (hlock : kvGet s.kv (lockKeyOf opts t) = none) :
    processMessages opts now runId runOk mid s t jobs =
      { pmBody opts runId runOk mid
          { s with kv := kvSet s.kv (lockKeyOf opts t) (natToDecimal now) }
          t jobs with
        state := releaseStep
          (pmBody opts runId runOk mid
            { s with kv := kvSet s.kv (lockKeyOf opts t) (natToDecimal now) }
            t jobs).state
          (lockKeyOf opts t) (natToDecimal now) } := by
  simp only [processMessages, hlock]

-- pmBody on a non-empty batch, success branch

theorem pmBody_cons_true (opts : QueueOptions) (runId : String)
    (mid : SysState → SysState) (s : SysState) (t : String) (j0 : QJob)
    (rest : List QJob) :
    pmBody opts runId true mid s t (j0 :: rest) =
      (let jobs := j0 :: rest
       let sorted := sortByTs jobs
       let combinedMessage :=
         String.intercalate "\n" (sorted.map (fun j => j.data.message))
       let instructions :=
         jsOrStr (sorted.getLastD j0).data.instructions opts.defaultInstructions
       let maxTimestamp := batchMaxTs jobs
       let mark := kvSet s.kv (lastProcessedKey opts t) (natToDecimal maxTimestamp)
       let s1 : SysState := { s with kv := mark }
       let s2 := mid s1
       let jobIds := (jobs.map (fun j => j.id)).filter (fun i => !(i == ""))
       let s3 : SysState := { s2 with queue := queueRemoveMany s2.queue (jobs.map (fun j => j.id)) }
       let s4 := removeJobsFromThreadIndex s3 t jobIds
       let newer := getNewerJobsByThreadId s4 t maxTimestamp
       ⟨s4, .ok ⟨t, jobs.length, jobIds, runId, "completed"⟩,
         some combinedMessage, some instructions,
         newer.head?.map (fun j => j.id)⟩) := by
  rfl

theorem queueGetJob_releaseStep (s : SysState) (k v id : String) :
    queueGetJob (releaseStep s k v) id = queueGetJob s id := rfl

theorem sMembers_releaseStep (s : SysState) (k v t : String) :
    sMembers (releaseStep s k v) t = sMembers s t := rfl

theorem getNewer_releaseStep (s : SysState) (k v t : String) (ts : Nat) :
    getNewerJobsByThreadId (releaseStep s k v) t ts =
      getNewerJobsByThreadId s t ts := rfl

theorem getJobs_releaseStep (s : SysState) (k v t : String) :
    getJobsByThreadId (releaseStep s k v) t = getJobsByThreadId s t := rfl

theorem queueGetJob_removeIndex (s : SysState) (t : String)
    (ids : List String) (id : String) :
    queueGetJob (removeJobsFromThreadIndex s t ids) id = queueGetJob s id := by
  unfold removeJobsFromThreadIndex
  split <;> rfl

theorem mem_getNewerJobsByThreadId (s : SysState) (t : String) (ts : Nat)
    (j : QJob) :
    j ∈ getNewerJobsByThreadId s t ts ↔
      (j ∈ getJobsByThreadId s t ∧ ts < j.data.timestamp) := by
  unfold getNewerJobsByThreadId
  rw [mem_sortByTs]
  simp [List.mem_filter]

-- projections of pmBody (non-empty batch), independent of runOk

theorem pmBody_sentMessage (opts : QueueOptions) (runId : String)
    (runOk : Bool) (mid : SysState → SysState) (s : SysState) (t : String)
    (j0 : QJob) (rest : List QJob) :
    (pmBody opts runId runOk mid s t (j0 :: rest)).sentMessage =
      some (String.intercalate "\n"
        ((sortByTs (j0 :: rest)).map (fun j => j.data.message))) := by
  cases runOk <;> rfl

theorem pmBody_runInstructions (opts : QueueOptions) (runId : String)
    (runOk : Bool) (mid : SysState → SysState) (s : SysState) (t : String)
    (j0 : QJob) (rest : List QJob) :
    (pmBody opts runId runOk mid s t (j0 :: rest)).runInstructions =
      some (jsOrStr ((sortByTs (j0 :: rest)).getLastD j0).data.instructions
        opts.defaultInstructions) := by
  cases runOk <;> rfl

theorem pmBody_true_state (opts : QueueOptions) (runId : String)
    (mid : SysState → SysState) (s : SysState) (t : String) (j0 : QJob)
    (rest : List QJob) :
    (pmBody opts runId true mid s t (j0 :: rest)).state =
      pmSuccessState opts mid s t (j0 :: rest) := by
  rw [pmBody_cons_true]
  rfl

theorem pmBody_true_promoted (opts : QueueOptions) (runId : String)
    (mid : SysState → SysState) (s : SysState) (t : String) (j0 : QJob)
    (rest : List QJob) :
    (pmBody opts runId true mid s t (j0 :: rest)).promoted =
      (getNewerJobsByThreadId (pmSuccessState opts mid s t (j0 :: rest)) t
        (batchMaxTs (j0 :: rest))).head?.map (fun j => j.id) := by
  rw [pmBody_cons_true]
  rfl

theorem processMessages_state_unlocked (opts : QueueOptions) (now : Nat)
    (runId : String) (runOk : Bool) (mid : SysState → SysState) (s : SysState)
    (t : String) (jobs : List QJob)
    (hlock : kvGet s.kv (lockKeyOf opts t) = none) :
    (processMessages opts now runId runOk mid s t jobs).state =
      releaseStep
        (pmBody opts runId runOk mid
          { s with kv := kvSet s.kv (lockKeyOf opts t) (natToDecimal now) }
          t jobs).state
        (lockKeyOf opts t) (natToDecimal now) := by
  rw [processMessages_unlocked opts now runId runOk mid s t jobs hlock]

theorem processMessages_promoted_unlocked (opts : QueueOptions) (now : Nat)
    (runId : String) (runOk : Bool) (mid : SysState → SysState) (s : SysState)
    (t : String) (jobs : List QJob)
    (hlock : kvGet s.kv (lockKeyOf opts t) = none) :
    (processMessages opts now runId runOk mid s t jobs).promoted =
      (pmBody opts runId runOk mid
        { s with kv := kvSet s.kv (lockKeyOf opts t) (natToDecimal now) }
        t jobs).promoted := by
  rw [processMessages_unlocked opts now runId runOk mid s t jobs hlock]

theorem not_mem_of_filter_not_contains {l ids : List String} {x : String}
    (h : x ∈ l.filter (fun i => !(ids.contains i))) : x ∉ ids := by
  rcases List.mem_filter.mp h with ⟨_, hk⟩
  intro hx
  simp [hx] at hk

theorem workerStep_unlocked_eq (opts : QueueOptions) (now : Nat) (s : SysState)
    (job : QJob) (hne : getJobsByThreadId s job.data.threadId ≠ [])
    (hlock : kvGet s.kv (lockKeyOf opts job.data.threadId) = none) :
    workerStep opts now s job =
      (match (sortByTs (getJobsByThreadId s job.data.threadId)).head? with
        | none => WorkerAction.noopEmptyIndex
        | some j0 =>
          if j0.id = job.id then
            WorkerAction.processBatch (sortByTs (getJobsByThreadId s job.data.threadId))
          else WorkerAction.noopNotOldest) := by
  unfold workerStep
  rw [if_neg hne, hlock]
  rfl

theorem removeIndex_kv (s : SysState) (t : String) (ids : List String) :
    (removeJobsFromThreadIndex s t ids).kv = s.kv := by
  unfold removeJobsFromThreadIndex
  split <;> rfl

theorem releaseStep_kv (s : SysState) (k v : String) :
    (releaseStep s k v).kv = (releaseLock s.kv k v).1 := rfl

theorem pmBody_nil_state (opts : QueueOptions) (runId : String) (runOk : Bool)
    (mid : SysState → SysState) (s : SysState) (t : String) :
    (pmBody opts runId runOk mid s t []).state = s := rfl

theorem pmBody_false_state (opts : QueueOptions) (runId : String)
    (mid : SysState → SysState) (s : SysState) (t : String) (j0 : QJob)
    (rest : List QJob) :
    (pmBody opts runId false mid s t (j0 :: rest)).state =
      pmMidState opts mid s t (j0 :: rest) := rfl

theorem pmSuccessState_kv (opts : QueueOptions) (mid : SysState → SysState)
    (s : SysState) (t : String) (jobs : List QJob) :
    (pmSuccessState opts mid s t jobs).kv =
      (pmMidState opts mid s t jobs).kv := by
  unfold pmSuccessState
  rw [removeIndex_kv]

theorem pmMidState_id_kv (opts : QueueOptions) (s : SysState) (t : String)
    (jobs : List QJob) :
    (pmMidState opts id s t jobs).kv =
      kvSet s.kv (lastProcessedKey opts t) (natToDecimal (batchMaxTs jobs)) := rfl

theorem lockKey_ne_lastProcessedKey (opts : QueueOptions) (t : String) :
    lockKeyOf opts t ≠ lastProcessedKey opts t := by
  intro h
  have hlen := congrArg String.length h
  have h1 : (lockKeyOf opts t).length =
      opts.queuePrefix.length + 13 + t.length := by
    simp [lockKeyOf, String.length_append]
    rfl
  have h2 : (lastProcessedKey opts t).length =
      opts.queuePrefix.length + 16 + t.length := by
    simp [lastProcessedKey, String.length_append]
    rfl
  rw [h1, h2] at hlen
  omega

theorem releaseLock_of_get_some (kv : KV) (k tok v : String)
    (hv : kvGet kv k = some v) :
    releaseLock kv k tok =
      if v = tok then (kvDel kv k, true) else (kv, false) := by
  unfold releaseLock
  rw [hv]

theorem releaseLock_of_get_none (kv : KV) (k tok : String)
    (h : kvGet kv k = none) :
    releaseLock kv k tok = (kv, false) := by
  unfold releaseLock
  rw [h]

theorem pollDelay_bounds : ∀ k, (0 : ℚ) ≤ pollDelay k ∧ pollDelay k ≤ 15000 := by
  intro k
  induction k with
  | zero =>
    rw [show pollDelay 0 = 1000 from rfl]
    constructor <;> norm_num
  | succ k ih =>
    rcases ih with ⟨h0, h15⟩
    constructor
    · rw [pollDelay]
      unfold nextDelay
      apply le_min
      · nlinarith
      · norm_num
    · rw [pollDelay]
      exact min_le_right _ _

theorem waitLoop_nil (handler : Option ToolHandler) (tid rid : String)
    (maxWait maxDelay : ℚ) (status : String) (delay elapsed : ℚ)
    (subs : List (String × String × List ToolOutput)) :
    waitLoop handler tid rid maxWait maxDelay [] status delay elapsed subs =
      if looping status then
        (if maxWait < elapsed then ⟨.timeoutErr, elapsed, subs⟩
         else ⟨.outOfResponses status, elapsed, subs⟩)
      else if status == "completed" then ⟨.completedStatus, elapsed, subs⟩
      else ⟨.endedWithErr status, elapsed, subs⟩ := rfl

theorem waitLoop_cons (handler : Option ToolHandler) (tid rid : String)
    (maxWait maxDelay : ℚ) (r : PollResponse) (rest : List PollResponse)
    (status : String) (delay elapsed : ℚ)
    (subs : List (String × String × List ToolOutput)) :
    waitLoop handler tid rid maxWait maxDelay (r :: rest) status delay elapsed subs =
      if looping status then
        (if maxWait < elapsed then ⟨.timeoutErr, elapsed, subs⟩
         else
          if r.status == "requires_action" then
            match handler, r.requiredAction with
            | some h, some (atype, toolCalls) =>
              if atype == "submit_tool_outputs" then
                match h tid rid toolCalls with
                | .ok toolOutputs =>
                  waitLoop handler tid rid maxWait maxDelay rest
                    "in_progress" (nextDelay maxDelay delay) (elapsed + delay)
                    (subs ++ [(tid, rid, toolOutputs)])
                | .error e => ⟨.handlerErr e, elapsed + delay, subs⟩
              else
                waitLoop handler tid rid maxWait maxDelay rest
                  r.status (nextDelay maxDelay delay) (elapsed + delay) subs
            | _, _ =>
              waitLoop handler tid rid maxWait maxDelay rest
                r.status (nextDelay maxDelay delay) (elapsed + delay) subs
          else
            waitLoop handler tid rid maxWait maxDelay rest
              r.status (nextDelay maxDelay delay) (elapsed + delay) subs)
      else if status == "completed" then ⟨.completedStatus, elapsed, subs⟩
      else ⟨.endedWithErr status, elapsed, subs⟩ := rfl

theorem waitLoop_timeout (handler : Option ToolHandler) (tid rid : String)
    (maxWait maxDelay : ℚ) (responses : List PollResponse) (status : String)
    (delay elapsed : ℚ) (subs : List (String × String × List ToolOutput))
    (hloop : looping status = true) (htime : maxWait < elapsed) :
    waitLoop handler tid rid maxWait maxDelay responses status delay elapsed subs =
      ⟨.timeoutErr, elapsed, subs⟩ := by
  cases responses with
  | nil => rw [waitLoop_nil, if_pos hloop, if_pos htime]
  | cons r rest => rw [waitLoop_cons, if_pos hloop, if_pos htime]

theorem waitLoop_elapsed_le (handler : Option ToolHandler) (tid rid : String)
    (maxWait maxDelay : ℚ) (responses : List PollResponse) :
    ∀ (status : String) (delay elapsed : ℚ)
      (subs : List (String × String × List ToolOutput)),
      delay ≤ maxDelay → elapsed ≤ maxWait + maxDelay →
      (waitLoop handler tid rid maxWait maxDelay responses status delay
        elapsed subs).elapsed ≤ maxWait + maxDelay := by
  induction responses with
  | nil =>
    intro status delay elapsed subs hd hE
    rw [waitLoop_nil]
    by_cases hl : looping status = true
    · rw [if_pos hl]
      by_cases ht : maxWait < elapsed
      · rw [if_pos ht]
        exact hE
      · rw [if_neg ht]
        exact hE
    · rw [if_neg hl]
      by_cases hc : (status == "completed") = true
      · rw [if_pos hc]
        exact hE
      · rw [if_neg hc]
        exact hE
  | cons r rest ih =>
    intro status delay elapsed subs hd hE
    rw [waitLoop_cons]
    by_cases hl : looping status = true
    · rw [if_pos hl]
      by_cases ht : maxWait < elapsed
      · rw [if_pos ht]
        exact hE
      · rw [if_neg ht]
        push_neg at ht
        have he1 : elapsed + delay ≤ maxWait + maxDelay := by linarith
        have hd1 : nextDelay maxDelay delay ≤ maxDelay := min_le_right _ _
        by_cases hra : (r.status == "requires_action") = true
        · rw [if_pos hra]
          split
          · split
            · split
              · exact ih _ _ _ _ hd1 he1
              · exact he1
            · exact ih _ _ _ _ hd1 he1
          · exact ih _ _ _ _ hd1 he1
        · rw [if_neg hra]
          exact ih _ _ _ _ hd1 he1
    · rw [if_neg hl]
      by_cases hc : (status == "completed") = true
      · rw [if_pos hc]
        exact hE
      · rw [if_neg hc]
        exact hE

theorem waitLoop_exit (handler : Option ToolHandler) (tid rid : String)
    (maxWait maxDelay : ℚ) (responses : List PollResponse) (status : String)
    (delay elapsed : ℚ) (subs : List (String × String × List ToolOutput))
    (hl : looping status = false) (hc : (status == "completed") = false) :
    waitLoop handler tid rid maxWait maxDelay responses status delay elapsed subs =
      ⟨.endedWithErr status, elapsed, subs⟩ := by
  cases responses with
  | nil =>
    rw [waitLoop_nil, if_neg (by simp [hl]), if_neg (by simp [hc])]
  | cons r rest =>
    rw [waitLoop_cons, if_neg (by simp [hl]), if_neg (by simp [hc])]

theorem waitLoop_ra_ok (h : ToolHandler) (tid rid : String)
    (maxWait maxDelay : ℚ) (r : PollResponse) (rest : List PollResponse)
    (status : String) (delay elapsed : ℚ)
    (subs : List (String × String × List ToolOutput))
    (calls : List ToolCall) (outs : List ToolOutput)
    (hloop : looping status = true) (htime : ¬ maxWait < elapsed)
    (hstat : r.status = "requires_action")
    (hra : r.requiredAction = some ("submit_tool_outputs", calls))
    (hok : h tid rid calls = .ok outs) :
    waitLoop (some h) tid rid maxWait maxDelay (r :: rest) status delay
        elapsed subs =
      waitLoop (some h) tid rid maxWait maxDelay rest "in_progress"
        (nextDelay maxDelay delay) (elapsed + delay)
        (subs ++ [(tid, rid, outs)]) := by
  rw [waitLoop_cons, if_pos hloop, if_neg htime,
    if_pos (show (r.status == "requires_action") = true by rw [hstat]; rfl), hra]
  show (if (("submit_tool_outputs" : String) == "submit_tool_outputs") = true then
      match h tid rid calls with
      | .ok toolOutputs =>
        waitLoop (some h) tid rid maxWait maxDelay rest "in_progress"
          (nextDelay maxDelay delay) (elapsed + delay)
          (subs ++ [(tid, rid, toolOutputs)])
      | .error e => ⟨.handlerErr e, elapsed + delay, subs⟩
    else
      waitLoop (some h) tid rid maxWait maxDelay rest r.status
        (nextDelay maxDelay delay) (elapsed + delay) subs) = _
  rw [if_pos (by rfl), hok]

theorem waitLoop_ra_error (h : ToolHandler) (tid rid : String)
    (maxWait maxDelay : ℚ) (r : PollResponse) (rest : List PollResponse)
    (status : String) (delay elapsed : ℚ)
    (subs : List (String × String × List ToolOutput))
    (calls : List ToolCall) (e : String)
    (hloop : looping status = true) (htime : ¬ maxWait < elapsed)
    (hstat : r.status = "requires_action")
    (hra : r.requiredAction = some ("submit_tool_outputs", calls))
    (herr : h tid rid calls = .error e) :
    waitLoop (some h) tid rid maxWait maxDelay (r :: rest) status delay
        elapsed subs =
      ⟨.handlerErr e, elapsed + delay, subs⟩ := by
  rw [waitLoop_cons, if_pos hloop, if_neg htime,
    if_pos (show (r.status == "requires_action") = true by rw [hstat]; rfl), hra]
  show (if (("submit_tool_outputs" : String) == "submit_tool_outputs") = true then
      match h tid rid calls with
      | .ok toolOutputs =>
        waitLoop (some h) tid rid maxWait maxDelay rest "in_progress"
          (nextDelay maxDelay delay) (elapsed + delay)
          (subs ++ [(tid, rid, toolOutputs)])
      | .error e => ⟨.handlerErr e, elapsed + delay, subs⟩
    else
      waitLoop (some h) tid rid maxWait maxDelay rest r.status
        (nextDelay maxDelay delay) (elapsed + delay) subs) = _
  rw [if_pos (by rfl), herr]

theorem waitLoop_ra_noHandler (tid rid : String)
    (maxWait maxDelay : ℚ) (r : PollResponse) (rest : List PollResponse)
    (status : String) (delay elapsed : ℚ)
    (subs : List (String × String × List ToolOutput))
    (hloop : looping status = true) (htime : ¬ maxWait < elapsed)
    (hstat : r.status = "requires_action") :
    waitLoop none tid rid maxWait maxDelay (r :: rest) status delay
        elapsed subs =
      ⟨.endedWithErr "requires_action", elapsed + delay, subs⟩ := by
  rw [waitLoop_cons, if_pos hloop, if_neg htime,
    if_pos (show (r.status == "requires_action") = true by rw [hstat]; rfl)]
  show waitLoop none tid rid maxWait maxDelay rest r.status
      (nextDelay maxDelay delay) (elapsed + delay) subs = _
  rw [hstat]
  exact waitLoop_exit none tid rid maxWait maxDelay rest "requires_action"
    (nextDelay maxDelay delay) (elapsed + delay) subs rfl rfl

theorem decDigitsAux_lt10 : ∀ (fuel n : Nat), ∀ d ∈ decDigitsAux fuel n, d < 10 := by
  intro fuel
  induction fuel with
  | zero =>
    intro n d hd
    cases n with
    | zero => simp [decDigitsAux] at hd
    | succ m => simp [decDigitsAux] at hd
  | succ fuel ih =>
    intro n d hd
    cases n with
    | zero => simp [decDigitsAux] at hd
    | succ m =>
      rw [decDigitsAux] at hd
      rcases List.mem_cons.mp hd with rfl | hd
      · omega
      · exact ih ((m + 1) / 10) d hd

theorem ofDecLE_decDigitsAux : ∀ (fuel n : Nat), n ≤ fuel →
    ofDecLE (decDigitsAux fuel n) = n := by
  intro fuel
  induction fuel with
  | zero =>
    intro n hn
    interval_cases n
    rfl
  | succ fuel ih =>
    intro n hn
    cases n with
    | zero => rfl
    | succ m =>
      rw [decDigitsAux, ofDecLE]
      rw [ih ((m + 1) / 10) (by
        have := Nat.div_lt_self (Nat.succ_pos m) (show 1 < 10 by norm_num)
        omega)]
      omega

theorem ofDecBE_append (l : List Nat) (d : Nat) :
    ofDecBE (l ++ [d]) = 10 * ofDecBE l + d := by
  induction l with
  | nil => simp [ofDecBE]
  | cons x xs ih =>
    rw [List.cons_append, ofDecBE, ofDecBE, ih]
    simp [List.length_append]
    ring

theorem ofDecBE_reverse (l : List Nat) : ofDecBE l.reverse = ofDecLE l := by
  induction l with
  | nil => rfl
  | cons d ds ih =>
    rw [List.reverse_cons, ofDecBE_append, ih, ofDecLE]
    ring

theorem ofDecBE_decReprD (n : Nat) : ofDecBE (decReprD n) = n := by
  unfold decReprD
  by_cases hn : n = 0
  · subst hn
    rfl
  · rw [if_neg hn]
    unfold decDigitsLE
    rw [ofDecBE_reverse]
    exact ofDecLE_decDigitsAux n n le_rfl

theorem decReprD_lt10 (n : Nat) : ∀ d ∈ decReprD n, d < 10 := by
  unfold decReprD
  by_cases hn : n = 0
  · subst hn
    intro d hd
    simp at hd
    omega
  · rw [if_neg hn]
    intro d hd
    exact decDigitsAux_lt10 n n d (List.mem_reverse.mp hd)

theorem ofDecBE_lt_pow (ds : List Nat) (h : ∀ d ∈ ds, d < 10) :
    ofDecBE ds < 10 ^ ds.length := by
  induction ds with
  | nil => simp [ofDecBE]
  | cons d tl ih =>
    rw [ofDecBE, List.length_cons]
    have hd : d < 10 := h d (by simp)
    have htl : ofDecBE tl < 10 ^ tl.length :=
      ih (fun x hx => h x (List.mem_cons_of_mem d hx))
    calc d * 10 ^ tl.length + ofDecBE tl
        < d * 10 ^ tl.length + 10 ^ tl.length := by omega
      _ = (d + 1) * 10 ^ tl.length := by ring
      _ ≤ 10 * 10 ^ tl.length := by
          have : d + 1 ≤ 10 := by omega
          exact Nat.mul_le_mul_right _ this
      _ = 10 ^ (tl.length + 1) := by ring

theorem digitChar_lt_digitChar (a b : Nat) (ha : a < 10) (hb : b < 10)
    (hab : a < b) : digitChar a < digitChar b := by
  interval_cases a <;> interval_cases b <;> first | omega | decide

theorem char_lt_irrefl (c : Char) : ¬ c < c := by
  simp

theorem list_lt_append_left (p : List Char) (as bs : List Char)
    (h : List.lt as bs) : List.lt (p ++ as) (p ++ bs) := by
  induction p with
  | nil => exact h
  | cons c q ih =>
    exact List.lt.tail (char_lt_irrefl c) (char_lt_irrefl c) ih

theorem digits_value_lt_list_lt : ∀ (as bs : List Nat),
    as.length = bs.length → (∀ d ∈ as, d < 10) → (∀ d ∈ bs, d < 10) →
    ofDecBE as < ofDecBE bs →
    List.lt (as.map digitChar) (bs.map digitChar) := by
  intro as
  induction as with
  | nil =>
    intro bs hlen _ _ hv
    cases bs with
    | nil => simp [ofDecBE] at hv
    | cons b tl => simp at hlen
  | cons a atl ih =>
    intro bs hlen ha hb hv
    cases bs with
    | nil => simp at hlen
    | cons b btl =>
      simp only [List.length_cons, Nat.succ.injEq] at hlen
      have ha0 : a < 10 := ha a (by simp)
      have hb0 : b < 10 := hb b (by simp)
      have hatl : ∀ d ∈ atl, d < 10 := fun d hd => ha d (List.mem_cons_of_mem a hd)
      have hbtl : ∀ d ∈ btl, d < 10 := fun d hd => hb d (List.mem_cons_of_mem b hd)
      have hva : ofDecBE atl < 10 ^ atl.length := ofDecBE_lt_pow atl hatl
      have hvb : ofDecBE btl < 10 ^ btl.length := ofDecBE_lt_pow btl hbtl
      rw [ofDecBE, ofDecBE] at hv
      rcases Nat.lt_trichotomy a b with hab | hab | hab
      · exact List.lt.head _ _ (digitChar_lt_digitChar a b ha0 hb0 hab)
      · subst hab
        apply List.lt.tail (char_lt_irrefl (digitChar a)) (char_lt_irrefl (digitChar a))
        apply ih btl hlen hatl hbtl
        rw [hlen] at hv
        omega
      · exfalso
        rw [hlen] at hv hva
        have h1 : b * 10 ^ btl.length + ofDecBE btl <
            (b + 1) * 10 ^ btl.length := by
          have := hvb
          ring_nf
          omega
        have h2 : (b + 1) * 10 ^ btl.length ≤ a * 10 ^ btl.length := by
          apply Nat.mul_le_mul_right
          omega
        omega

theorem natToDecimal_lt (a b : Nat) (hab : a < b)
    (hlen : (natToDecimal a).length = (natToDecimal b).length) :
    List.lt (natToDecimal a).data (natToDecimal b).data := by
  unfold natToDecimal at *
  have hlen' : (decReprD a).length = (decReprD b).length := by
    simpa [String.length] using hlen
  have := digits_value_lt_list_lt (decReprD a) (decReprD b) hlen'
    (decReprD_lt10 a) (decReprD_lt10 b)
    (by rw [ofDecBE_decReprD, ofDecBE_decReprD]; exact hab)
  simpa using this

theorem messageJobId_mono (t : String) (a b : Nat) (hab : a < b)
    (hlen : (natToDecimal a).length = (natToDecimal b).length) :
    messageJobId t a < messageJobId t b := by
  rw [String.lt_iff_toList_lt]
  have hlt : List.lt (messageJobId t a).data (messageJobId t b).data := by
    unfold messageJobId
    rw [String.data_append, String.data_append, String.data_append,
      String.data_append, String.data_append, String.data_append]
    rw [List.append_assoc, List.append_assoc]
    rw [← List.append_assoc, ← List.append_assoc]
    exact list_lt_append_left _ _ _ (natToDecimal_lt a b hab hlen)
  exact (List.lt_iff_lex_lt _ _).mp hlt

/-! The claims. -/

/-- Claim C1: for every non-empty batch processed in one cycle (thread lock free at entry), the combined message body sent to the external service equals the batched message texts in ascending-timestamp order joined by newlines, and the run is created with the instructions of the job with the strictly greatest timestamp, falling back to the configured default when that job carries none (an explicitly non-empty value is used as is). -/
theorem processMessages_combined_message_and_instructions
    (opts : QueueOptions) (now : Nat) (runId : String) (runOk : Bool)
    (mid : SysState → SysState) (s : SysState) (t : String) (jobs : List QJob)
    (hlock : kvGet s.kv (lockKeyOf opts t) = none) (hne : jobs ≠ []) :
    (∃ l : List QJob, l.Perm jobs ∧ l.Sorted tsLE ∧
        (processMessages opts now runId runOk mid s t jobs).sentMessage =
          some (String.intercalate "\n" (l.map (fun j => j.data.message)))) ∧
    (∀ jm ∈ jobs, (∀ j ∈ jobs, j ≠ jm → j.data.timestamp < jm.data.timestamp) →
        (jm.data.instructions = none →
          (processMessages opts now runId runOk mid s t jobs).runInstructions =
            some opts.defaultInstructions) ∧
        (∀ i, jm.data.instructions = some i → i ≠ "" →
          (processMessages opts now runId runOk mid s t jobs).runInstructions =
            some i)) := by
  rw [processMessages_unlocked opts now runId runOk mid s t jobs hlock]
  cases jobs with
  | nil => exact absurd rfl hne
  | cons j0 rest =>
    constructor
    · refine ⟨sortByTs (j0 :: rest), sortByTs_perm _, sortByTs_sorted _, ?_⟩
      show (pmBody _ _ _ _ _ _ _).sentMessage = _
      exact pmBody_sentMessage _ _ _ _ _ _ _ _
    · intro jm hjm hmax
      have hlast : (sortByTs (j0 :: rest)).getLastD j0 = jm :=
        sortByTs_getLastD_strictMax (j0 :: rest) j0 jm (by simp) hjm hmax
      have hri : (pmBody opts runId runOk mid
          { s with kv := kvSet s.kv (lockKeyOf opts t) (natToDecimal now) }
          t (j0 :: rest)).runInstructions =
          some (jsOrStr jm.data.instructions opts.defaultInstructions) := by
        rw [pmBody_runInstructions, hlast]
      constructor
      · intro hnone
        show (pmBody _ _ _ _ _ _ _).runInstructions = _
        rw [hri, hnone]
        rfl
      · intro i hi hine
        show (pmBody _ _ _ _ _ _ _).runInstructions = _
        rw [hri, hi]
        simp [jsOrStr, hine]

/-- Witness for claim C1: the theorem applied to a concrete two-message batch, whose most recent job carries the instructions used for the run. -/
theorem processMessages_combined_message_witness :
    (processMessages exOpts 3000 "run1" true id exStateAB "T"
      [exJobA, exJobB]).runInstructions = some "be nice" :=
  ((processMessages_combined_message_and_instructions exOpts 3000 "run1" true id exStateAB "T" [exJobA, exJobB]
      (by decide) (by decide)).2 exJobB (by decide) (by decide)).2
    "be nice" rfl (by decide)

/-- Claim C2: after a successful run, every batched job is removed from the queue and all their ids from the thread's job index; among the jobs still indexed for the thread exactly those with timestamp strictly greater than the recorded high-water mark count as newer (equal is not newer), and when any exist the promoted job is a newer job with the smallest timestamp. -/
theorem processMessages_success_cleanup_and_promotion
    (opts : QueueOptions) (now : Nat) (runId : String)
    (mid : SysState → SysState) (s : SysState) (t : String) (jobs : List QJob)
    (hlock : kvGet s.kv (lockKeyOf opts t) = none) (hne : jobs ≠ [])
    (hids : ∀ j ∈ jobs, j.id ≠ "") :
    (∀ j ∈ jobs,
      queueGetJob (processMessages opts now runId true mid s t jobs).state j.id
        = none) ∧
    (∀ j ∈ jobs,
      j.id ∉ sMembers (processMessages opts now runId true mid s t jobs).state t) ∧
    (∀ j, j ∈ getNewerJobsByThreadId
        (processMessages opts now runId true mid s t jobs).state t
        (batchMaxTs jobs) ↔
      (j ∈ getJobsByThreadId
          (processMessages opts now runId true mid s t jobs).state t ∧
        batchMaxTs jobs < j.data.timestamp)) ∧
    (getNewerJobsByThreadId (processMessages opts now runId true mid s t jobs).state
        t (batchMaxTs jobs) = [] →
      (processMessages opts now runId true mid s t jobs).promoted = none) ∧
    (getNewerJobsByThreadId (processMessages opts now runId true mid s t jobs).state
        t (batchMaxTs jobs) ≠ [] →
      ∃ jn ∈ getNewerJobsByThreadId
          (processMessages opts now runId true mid s t jobs).state t
          (batchMaxTs jobs),
        (processMessages opts now runId true mid s t jobs).promoted = some jn.id ∧
        ∀ j ∈ getNewerJobsByThreadId
            (processMessages opts now runId true mid s t jobs).state t
            (batchMaxTs jobs),
          jn.data.timestamp ≤ j.data.timestamp) := by
  cases jobs with
  | nil => exact absurd rfl hne
  | cons j0 rest =>
    have hstate : (processMessages opts now runId true mid s t (j0 :: rest)).state =
        releaseStep (pmSuccessState opts mid
            { s with kv := kvSet s.kv (lockKeyOf opts t) (natToDecimal now) }
            t (j0 :: rest))
          (lockKeyOf opts t) (natToDecimal now) := by
      rw [processMessages_state_unlocked opts now runId true mid s t (j0 :: rest) hlock,
        pmBody_true_state]
    have hpromo : (processMessages opts now runId true mid s t (j0 :: rest)).promoted =
        (getNewerJobsByThreadId (pmSuccessState opts mid
            { s with kv := kvSet s.kv (lockKeyOf opts t) (natToDecimal now) }
            t (j0 :: rest)) t (batchMaxTs (j0 :: rest))).head?.map
          (fun j => j.id) := by
      rw [processMessages_promoted_unlocked opts now runId true mid s t (j0 :: rest) hlock,
        pmBody_true_promoted]
    rw [hstate, hpromo]
    set S := pmSuccessState opts mid
      { s with kv := kvSet s.kv (lockKeyOf opts t) (natToDecimal now) }
      t (j0 :: rest) with hS
    have hids0 : j0.id ≠ "" := hids j0 (by simp)
    have hjobIds_ne : ((j0 :: rest).map (fun j => j.id)).filter
        (fun i => !(i == "")) ≠ [] := by
      intro hc
      have hmm : j0.id ∈ ((j0 :: rest).map (fun j => j.id)).filter
          (fun i => !(i == "")) :=
        List.mem_filter.mpr ⟨by simp, by simpa using hids0⟩
      rw [hc] at hmm
      simp at hmm
    refine ⟨?_, ?_, ?_, ?_, ?_⟩
    · intro j hj
      rw [queueGetJob_releaseStep, hS]
      unfold pmSuccessState
      rw [queueGetJob_removeIndex]
      show ((queueRemoveMany (pmMidState opts mid _ t (j0 :: rest)).queue
        ((j0 :: rest).map (fun j => j.id))).find?
          (fun p => p.1 == j.id)).map (fun p => QJob.mk p.1 p.2) = none
      rw [find?_queueRemoveMany _ _ _ (List.mem_map.mpr ⟨j, hj, rfl⟩)]
      rfl
    · intro j hj
      rw [sMembers_releaseStep, hS]
      unfold pmSuccessState removeJobsFromThreadIndex
      rw [if_neg hjobIds_ne]
      rw [sMembers_sRemIndex_self]
      intro hmem
      have hin : j.id ∈ ((j0 :: rest).map (fun j => j.id)).filter
          (fun i => !(i == "")) :=
        List.mem_filter.mpr ⟨List.mem_map.mpr ⟨j, hj, rfl⟩, by simpa using hids j hj⟩
      exact not_mem_of_filter_not_contains hmem hin
    · intro j
      exact mem_getNewerJobsByThreadId _ t _ j
    · intro hnil
      rw [getNewer_releaseStep] at hnil
      rw [hnil]
      rfl
    · intro hnn
      rw [getNewer_releaseStep] at hnn ⊢
      cases hh : (getNewerJobsByThreadId S t (batchMaxTs (j0 :: rest))).head? with
      | none =>
        rw [List.head?_eq_none_iff] at hh
        exact absurd hh hnn
      | some jn =>
        refine ⟨jn, List.mem_of_mem_head? hh, rfl, ?_⟩
        intro j hj
        have hj' : j ∈ (getJobsByThreadId S t).filter
            (fun x => decide (batchMaxTs (j0 :: rest) < x.data.timestamp)) :=
          (mem_sortByTs _ j).mp hj
        exact sortByTs_head_min _ jn hh j hj'

/-- Witness for claim C2: a concrete state where a third message with timestamp 5000 is indexed while the batch with high-water mark 2000 is processed; the batch is removed and the late job is the promoted one. -/
theorem processMessages_success_cleanup_witness :
    queueGetJob (processMessages exOpts 3000 "run1" true id exStateABC "T"
      [exJobA, exJobB]).state exJobA.id = none ∧
    exJobA.id ∉ sMembers (processMessages exOpts 3000 "run1" true id
      exStateABC "T" [exJobA, exJobB]).state "T" ∧
    (∃ jn ∈ getNewerJobsByThreadId (processMessages exOpts 3000 "run1" true id
        exStateABC "T" [exJobA, exJobB]).state "T"
        (batchMaxTs [exJobA, exJobB]),
      (processMessages exOpts 3000 "run1" true id exStateABC "T"
        [exJobA, exJobB]).promoted = some jn.id ∧
      ∀ j ∈ getNewerJobsByThreadId (processMessages exOpts 3000 "run1" true id
          exStateABC "T" [exJobA, exJobB]).state "T"
          (batchMaxTs [exJobA, exJobB]),
        jn.data.timestamp ≤ j.data.timestamp) := by
  have h := processMessages_success_cleanup_and_promotion exOpts 3000 "run1" id exStateABC "T" [exJobA, exJobB]
    (by decide) (by decide) (by decide)
  exact ⟨h.1 exJobA (by decide), h.2.1 exJobA (by decide),
    h.2.2.2.2 (by decide)⟩

/-- Claim C3: on a worker wake-up, an empty live-job list for the thread makes the callback return without processing; otherwise an existing thread lock makes it reschedule the job with a fixed 5-second delay; otherwise batch processing runs exactly when the woken job is the oldest live job by timestamp, and any other dispatched job of the thread returns without effect. -/
theorem workerStep_dispatch_cases (opts : QueueOptions) (now : Nat) (s : SysState) (job : QJob) :
    (getJobsByThreadId s job.data.threadId = [] →
      workerStep opts now s job = WorkerAction.noopEmptyIndex) ∧
    (getJobsByThreadId s job.data.threadId ≠ [] →
      (kvGet s.kv (lockKeyOf opts job.data.threadId)).isSome →
      workerStep opts now s job = WorkerAction.delayedRetry (now + 5000)) ∧
    (getJobsByThreadId s job.data.threadId ≠ [] →
      kvGet s.kv (lockKeyOf opts job.data.threadId) = none →
      job ∈ getJobsByThreadId s job.data.threadId →
      (∀ j ∈ getJobsByThreadId s job.data.threadId, j ≠ job →
        job.data.timestamp < j.data.timestamp) →
      workerStep opts now s job =
        WorkerAction.processBatch (sortByTs (getJobsByThreadId s job.data.threadId))) ∧
    (getJobsByThreadId s job.data.threadId ≠ [] →
      kvGet s.kv (lockKeyOf opts job.data.threadId) = none →
      job ∈ getJobsByThreadId s job.data.threadId →
      (∀ a ∈ getJobsByThreadId s job.data.threadId,
        ∀ b ∈ getJobsByThreadId s job.data.threadId, a.id = b.id → a = b) →
      (∃ j' ∈ getJobsByThreadId s job.data.threadId,
        j'.data.timestamp < job.data.timestamp) →
      workerStep opts now s job = WorkerAction.noopNotOldest) := by
  refine ⟨?_, ?_, ?_, ?_⟩
  · intro h
    unfold workerStep
    rw [if_pos h]
  · intro hne hlock
    unfold workerStep
    rw [if_neg hne]
    rcases Option.isSome_iff_exists.mp hlock with ⟨v, hv⟩
    rw [hv]
    rfl
  · intro hne hlock hmem hmin
    rw [workerStep_unlocked_eq opts now s job hne hlock]
    cases hh : (sortByTs (getJobsByThreadId s job.data.threadId)).head? with
    | none =>
      rw [List.head?_eq_none_iff] at hh
      exact absurd hh (sortByTs_ne_nil _ hne)
    | some h0 =>
      have h0mem : h0 ∈ getJobsByThreadId s job.data.threadId :=
        (mem_sortByTs _ h0).mp (List.mem_of_mem_head? hh)
      have : h0 = job := by
        by_cases hc : h0 = job
        · exact hc
        · have h1 : job.data.timestamp < h0.data.timestamp := hmin h0 h0mem hc
          have h2 : h0.data.timestamp ≤ job.data.timestamp :=
            sortByTs_head_min _ h0 hh job hmem
          omega
      show (if h0.id = job.id then
          WorkerAction.processBatch (sortByTs (getJobsByThreadId s job.data.threadId))
        else WorkerAction.noopNotOldest) =
        WorkerAction.processBatch (sortByTs (getJobsByThreadId s job.data.threadId))
      rw [if_pos (by rw [this])]
  · intro hne hlock hmem hinj hold
    rw [workerStep_unlocked_eq opts now s job hne hlock]
    cases hh : (sortByTs (getJobsByThreadId s job.data.threadId)).head? with
    | none =>
      rw [List.head?_eq_none_iff] at hh
      exact absurd hh (sortByTs_ne_nil _ hne)
    | some h0 =>
      have h0mem : h0 ∈ getJobsByThreadId s job.data.threadId :=
        (mem_sortByTs _ h0).mp (List.mem_of_mem_head? hh)
      rcases hold with ⟨j', hj', hjlt⟩
      have hne0 : ¬ (h0.id = job.id) := by
        intro hid
        have : h0 = job := hinj h0 h0mem job hmem hid
        subst this
        have h2 : h0.data.timestamp ≤ j'.data.timestamp :=
          sortByTs_head_min _ h0 hh j' hj'
        omega
      show (if h0.id = job.id then
          WorkerAction.processBatch (sortByTs (getJobsByThreadId s job.data.threadId))
        else WorkerAction.noopNotOldest) = WorkerAction.noopNotOldest
      rw [if_neg hne0]

/-- Witness for claim C3: in a concrete two-job state the older job triggers batch processing and the newer one is a no-op. -/
theorem workerStep_dispatch_witness :
    workerStep exOpts 5000 exStateAB exJobA =
      WorkerAction.processBatch (sortByTs (getJobsByThreadId exStateAB "T")) ∧
    workerStep exOpts 5000 exStateAB exJobB = WorkerAction.noopNotOldest := by
  refine ⟨?_, ?_⟩
  · exact (workerStep_dispatch_cases exOpts 5000 exStateAB exJobA).2.2.1 (by decide)
      (by decide) (by decide) (by decide)
  · exact (workerStep_dispatch_cases exOpts 5000 exStateAB exJobB).2.2.2 (by decide)
      (by decide) (by decide) (by decide) (by decide)

/-- Claim C4: on every exit path of processMessages (success, external-call failure, or the error thrown on an empty batch) the finally step applies compare-and-delete release to the lock key with the token set at acquisition; releaseLock deletes the key exactly when the stored value still equals the caller's token, and deletes nothing when it differs; absent interference the lock key is gone after the call. -/
theorem processMessages_lock_release_compare_and_delete (opts : QueueOptions) (now : Nat) (runId : String)
    (runOk : Bool) (mid : SysState → SysState) (s : SysState) (t : String)
    (jobs : List QJob) (hlock : kvGet s.kv (lockKeyOf opts t) = none) :
    ((processMessages opts now runId runOk mid s t jobs).state =
      releaseStep
        (pmBody opts runId runOk mid
          { s with kv := kvSet s.kv (lockKeyOf opts t) (natToDecimal now) }
          t jobs).state
        (lockKeyOf opts t) (natToDecimal now)) ∧
    (∀ kv k tok v, kvGet kv k = some v →
      ((kvGet (releaseLock kv k tok).1 k = none) ↔ tok = v) ∧
      (tok ≠ v → releaseLock kv k tok = (kv, false))) ∧
    (∀ kv k tok, kvGet kv k = none → releaseLock kv k tok = (kv, false)) ∧
    (kvGet (processMessages opts now runId runOk id s t jobs).state.kv
      (lockKeyOf opts t) = none) := by
  refine ⟨?_, ?_, ?_, ?_⟩
  · exact processMessages_state_unlocked opts now runId runOk mid s t jobs hlock
  · intro kv k tok v hv
    rw [releaseLock_of_get_some kv k tok v hv]
    by_cases he : v = tok
    · subst he
      rw [if_pos rfl]
      constructor
      · rw [kvGet_kvDel_self]
        simp
      · intro hc
        exact absurd rfl hc
    · rw [if_neg he]
      constructor
      · rw [hv]
        constructor
        · intro hc
          exact absurd hc (by simp)
        · intro hc
          exact absurd hc.symm he
      · intro _
        rfl
  · intro kv k tok hk
    exact releaseLock_of_get_none kv k tok hk
  · rw [processMessages_state_unlocked opts now runId runOk id s t jobs hlock,
      releaseStep_kv]
    cases jobs with
    | nil =>
      rw [pmBody_nil_state]
      show kvGet (releaseLock (kvSet s.kv (lockKeyOf opts t) (natToDecimal now))
        (lockKeyOf opts t) (natToDecimal now)).1 (lockKeyOf opts t) = none
      rw [releaseLock_of_get_some _ _ _ _ (kvGet_kvSet_self _ _ _), if_pos rfl]
      exact kvGet_kvDel_self _ _
    | cons j0 rest =>
      have hkv : ∀ st : SysState, st.kv =
          kvSet (kvSet s.kv (lockKeyOf opts t) (natToDecimal now))
            (lastProcessedKey opts t)
            (natToDecimal (batchMaxTs (j0 :: rest))) →
          kvGet (releaseLock st.kv (lockKeyOf opts t) (natToDecimal now)).1
            (lockKeyOf opts t) = none := by
        intro st hst
        rw [hst]
        have hne := lockKey_ne_lastProcessedKey opts t
        have hg : kvGet (kvSet (kvSet s.kv (lockKeyOf opts t) (natToDecimal now))
            (lastProcessedKey opts t) (natToDecimal (batchMaxTs (j0 :: rest))))
            (lockKeyOf opts t) = some (natToDecimal now) := by
          rw [kvGet_kvSet_ne _ _ _ _ hne]
          exact kvGet_kvSet_self _ _ _
        rw [releaseLock_of_get_some _ _ _ _ hg, if_pos rfl]
        exact kvGet_kvDel_self _ _
      cases runOk with
      | false =>
        rw [pmBody_false_state]
        exact hkv _ (pmMidState_id_kv opts _ t (j0 :: rest))
      | true =>
        rw [pmBody_true_state]
        exact hkv _ ((pmSuccessState_kv opts id _ t (j0 :: rest)).trans
          (pmMidState_id_kv opts _ t (j0 :: rest)))

/-- Witness for claim C4: after a concrete successful cycle the lock key is gone, and releasing a lock whose stored token differs deletes nothing. -/
theorem processMessages_lock_release_witness :
    kvGet (processMessages exOpts 3000 "run1" true id exStateAB "T"
      [exJobA, exJobB]).state.kv (lockKeyOf exOpts "T") = none ∧
    releaseLock [("k", "a")] "k" "b" = ([("k", "a")], false) := by
  have h := processMessages_lock_release_compare_and_delete exOpts 3000 "run1" true id exStateAB "T"
    [exJobA, exJobB] (by decide)
  exact ⟨h.2.2.2, (h.2.1 [("k", "a")] "k" "b" "a" (by decide)).2 (by decide)⟩

/-- Claim C5: when a poll reports requires_action with a submit_tool_outputs action and a handler is configured, the loop calls the handler with (threadId, runId, toolCalls), records the submission of the returned outputs, and resumes polling with the run treated as in_progress; an error thrown by the handler propagates as the run's failure; with no handler configured the run fails with status requires_action. -/
theorem waitLoop_requires_action_handling (tid rid : String) (maxWait maxDelay : ℚ)
    (r : PollResponse) (rest : List PollResponse) (status : String)
    (delay elapsed : ℚ) (subs : List (String × String × List ToolOutput))
    (calls : List ToolCall)
    (hloop : looping status = true) (htime : ¬ maxWait < elapsed)
    (hstat : r.status = "requires_action")
    (hra : r.requiredAction = some ("submit_tool_outputs", calls)) :
    (∀ (h : ToolHandler) (outs : List ToolOutput), h tid rid calls = .ok outs →
      waitLoop (some h) tid rid maxWait maxDelay (r :: rest) status delay
          elapsed subs =
        waitLoop (some h) tid rid maxWait maxDelay rest "in_progress"
          (nextDelay maxDelay delay) (elapsed + delay)
          (subs ++ [(tid, rid, outs)])) ∧
    (∀ (h : ToolHandler) (e : String), h tid rid calls = .error e →
      waitLoop (some h) tid rid maxWait maxDelay (r :: rest) status delay
          elapsed subs =
        ⟨.handlerErr e, elapsed + delay, subs⟩) ∧
    (waitLoop none tid rid maxWait maxDelay (r :: rest) status delay
        elapsed subs =
      ⟨.endedWithErr "requires_action", elapsed + delay, subs⟩) :=
  ⟨fun h outs hok => waitLoop_ra_ok h tid rid maxWait maxDelay r rest status
      delay elapsed subs calls outs hloop htime hstat hra hok,
   fun h e herr => waitLoop_ra_error h tid rid maxWait maxDelay r rest status
      delay elapsed subs calls e hloop htime hstat hra herr,
   waitLoop_ra_noHandler tid rid maxWait maxDelay r rest status delay elapsed
      subs hloop htime hstat⟩

/-- Witness for claim C5: a concrete requires_action response handled by a concrete handler, and the same response failing the run when no handler is configured. -/
theorem waitLoop_requires_action_witness :
    waitLoop (some exHandler) "T" "R" 300000 15000 [exRAResponse]
        "in_progress" 1000 0 [] =
      waitLoop (some exHandler) "T" "R" 300000 15000 [] "in_progress"
        (nextDelay 15000 1000) (0 + 1000) ([] ++ [("T", "R", [exToolOutput])]) ∧
    waitLoop none "T" "R" 300000 15000 [exRAResponse] "in_progress" 1000 0 [] =
      ⟨.endedWithErr "requires_action", 0 + 1000, []⟩ := by
  have h := waitLoop_requires_action_handling "T" "R" 300000 15000 exRAResponse [] "in_progress"
    1000 0 [] [exToolCall] rfl (by norm_num) rfl rfl
  exact ⟨h.1 exHandler [exToolOutput] rfl, h.2.2⟩

set_option maxRecDepth 10000 in
/-- Counterexample to claim C6 as stated: after 24 in_progress polls and one completed poll the run succeeds with total poll duration 302171.875 ms, strictly above the 300000 ms ceiling, and no timeout is raised — the ceiling bounds when an iteration may start, not the total duration. -/
theorem waitForRunCompletion_duration_exceeds_ceiling_cex :
    (waitForRunCompletion none "T" "R" c6Responses).outcome =
      WaitOutcome.completedStatus ∧
    300000 < (waitForRunCompletion none "T" "R" c6Responses).elapsed := by
  have h : waitForRunCompletion none "T" "R" c6Responses =
      ⟨WaitOutcome.completedStatus, 2417375 / 8, []⟩ := by
    norm_num [waitForRunCompletion, waitLoop, looping, nextDelay, c6Responses,
      List.replicate]
    decide
  rw [h]
  norm_num

-- counterexample C8

/-- Claim C6 (amended): the timeout check runs at each iteration start, so once elapsed time strictly exceeds the ceiling the operation fails with a timeout regardless of the run's state and no further polling happens; consequently the total poll duration never exceeds the ceiling plus the delay cap (300000 + 15000 ms for the hard-coded configuration) — it can overshoot the ceiling by at most one capped sleep. -/
theorem waitLoop_timeout_and_overshoot_bound :
    (∀ (handler : Option ToolHandler) (tid rid : String)
      (maxWait maxDelay : ℚ) (responses : List PollResponse) (status : String)
      (delay elapsed : ℚ) (subs : List (String × String × List ToolOutput)),
      looping status = true → maxWait < elapsed →
      waitLoop handler tid rid maxWait maxDelay responses status delay
          elapsed subs =
        ⟨.timeoutErr, elapsed, subs⟩) ∧
    (∀ (handler : Option ToolHandler) (tid rid : String)
      (maxWait maxDelay : ℚ) (responses : List PollResponse) (status : String)
      (delay elapsed : ℚ) (subs : List (String × String × List ToolOutput)),
      delay ≤ maxDelay → elapsed ≤ maxWait + maxDelay →
      (waitLoop handler tid rid maxWait maxDelay responses status delay
        elapsed subs).elapsed ≤ maxWait + maxDelay) ∧
    (∀ (handler : Option ToolHandler) (tid rid : String)
      (responses : List PollResponse),
      (waitForRunCompletion handler tid rid responses).elapsed ≤
        300000 + 15000) := by
  refine ⟨?_, ?_, ?_⟩
  · intro handler tid rid maxWait maxDelay responses status delay elapsed subs hl ht
    exact waitLoop_timeout handler tid rid maxWait maxDelay responses status
      delay elapsed subs hl ht
  · intro handler tid rid maxWait maxDelay responses status delay elapsed subs hd hE
    exact waitLoop_elapsed_le handler tid rid maxWait maxDelay responses
      status delay elapsed subs hd hE
  · intro handler tid rid responses
    exact waitLoop_elapsed_le handler tid rid 300000 15000 responses
      "in_progress" 1000 0 [] (by norm_num) (by norm_num)

/-- Witness for claim C6: a concrete loop state past its ceiling times out immediately, and a concrete call of waitForRunCompletion stays within ceiling + cap. -/
theorem waitLoop_timeout_bound_witness :
    waitLoop none "T" "R" 10 15000 [] "in_progress" 1000 11 [] =
      ⟨WaitOutcome.timeoutErr, 11, []⟩ ∧
    (waitForRunCompletion none "T" "R" []).elapsed ≤ 300000 + 15000 :=
  ⟨waitLoop_timeout_and_overshoot_bound.1 none "T" "R" 10 15000 [] "in_progress" 1000 11 []
      rfl (by norm_num),
   waitLoop_timeout_and_overshoot_bound.2.2 none "T" "R" []⟩

/-- Claim C7: the polling delay sequence starts at 1000 ms and each iteration applies nextDelay (multiply by 1.5, cap at 15000 ms), exactly the update waitLoop performs; the sequence is monotonically non-decreasing and never exceeds 15000 ms. -/
theorem pollDelay_initial_monotone_capped : pollDelay 0 = 1000 ∧
    ∀ k, pollDelay (k + 1) = nextDelay 15000 (pollDelay k) ∧
      pollDelay k ≤ pollDelay (k + 1) ∧ pollDelay k ≤ 15000 := by
  constructor
  · rfl
  · intro k
    obtain ⟨h0, h15⟩ := pollDelay_bounds k
    refine ⟨rfl, ?_, h15⟩
    rw [pollDelay]
    unfold nextDelay
    apply le_min
    · nlinarith
    · exact h15

/-- Counterexample to claim C8 as stated: with the index set presenting the two live job ids in reverse chronological order (a Redis set iterates in unspecified order), getJobsByThreadId returns the jobs with timestamps [2000, 1000], which is not ascending — the function does not sort. -/
theorem getJobsByThreadId_not_sorted_cex :
    (getJobsByThreadId c8CexState "T").map (fun j => j.data.timestamp) =
      [2000, 1000] ∧
    ¬ ((getJobsByThreadId c8CexState "T").map
        (fun j => j.data.timestamp)).Sorted (· ≤ ·) := by
  constructor
  · decide
  · intro h
    have := List.Sorted.rel_get_of_lt h (show (0 : Fin 2) < 1 by decide)
    revert this
    decide

-- counterexample C9

/-- Claim C8 (amended): getJobsByThreadId returns exactly the thread's live indexed jobs in index order, silently skipping indexed ids whose job was already removed from the queue (null fetches are filtered out), and fetches in batches of at most 20 ids; it does not itself order by timestamp — its callers sort. -/
theorem getJobsByThreadId_live_jobs_batched (s : SysState) (t : String) :
    getJobsByThreadId s t = (sMembers s t).filterMap (queueGetJob s) ∧
    (∀ c ∈ chunksOf 20 (sMembers s t), c.length ≤ 20) :=
  ⟨getJobsByThreadId_eq_filterMap s t,
   fun c hc => chunksOf_mem_length 20 (sMembers s t) c (by norm_num) hc⟩

/-- Witness for claim C8: the amended theorem applied to the concrete two-job state. -/
theorem getJobsByThreadId_live_jobs_witness :
    getJobsByThreadId c8CexState "T" =
      (sMembers c8CexState "T").filterMap (queueGetJob c8CexState) :=
  (getJobsByThreadId_live_jobs_batched c8CexState "T").1

/-- Counterexample to claim C9 as stated: timestamps 9 < 10, yet the job id thread_T_9 is not lexically smaller than thread_T_10 — lexical order disagrees with chronological order when the decimal timestamps differ in length. -/
theorem messageJobId_lexical_order_cex :
    (9 : Nat) < 10 ∧ ¬ (messageJobId "T" 9 < messageJobId "T" 10) := by
  constructor
  · decide
  · simp only [String.lt_iff_toList_lt]
    decide

/-- Claim C9 (amended): the job id produced by addMessageToThread is the deterministic function thread_threadId_timestamp of thread id and timestamp, and for any two timestamps whose decimal renderings have equal length (as all realistic millisecond clock values do) the strictly smaller timestamp yields the lexically smaller job id. -/
theorem messageJobId_deterministic_and_mono :
    (∀ (opts : QueueOptions) (now : Nat) (s : SysState) (t msg : String)
      (ins : Option String),
      (addMessageToThread opts now s t msg ins).2 = messageJobId t now) ∧
    (∀ (t : String) (a b : Nat), a < b →
      (natToDecimal a).length = (natToDecimal b).length →
      messageJobId t a < messageJobId t b) :=
  ⟨fun _ _ _ _ _ _ => rfl,
   fun t a b hab hlen => messageJobId_mono t a b hab hlen⟩

/-- Witness for claim C9: the id returned for a concrete submission, and lexical monotonicity at the equal-length timestamps 1000 < 2000. -/
theorem messageJobId_deterministic_witness :
    (addMessageToThread exOpts 1000 exState0 "T" "hello" none).2 =
      messageJobId "T" 1000 ∧
    messageJobId "T" 1000 < messageJobId "T" 2000 :=
  ⟨messageJobId_deterministic_and_mono.1 exOpts 1000 exState0 "T" "hello" none,
   messageJobId_deterministic_and_mono.2 "T" 1000 2000 (by decide) (by decide)⟩

/-- Claim C10: when the most recently submitted job of the batch carries instructions equal to the empty string, the cycle uses the configured defaultInstructions — the JS fallback (instructions || default) triggers on any falsy value, not only on an absent field. -/
theorem processMessages_empty_instructions_fallback (opts : QueueOptions) (now : Nat) (runId : String)
    (runOk : Bool) (mid : SysState → SysState) (s : SysState) (t : String)
    (jobs : List QJob) (jm : QJob)
    (hlock : kvGet s.kv (lockKeyOf opts t) = none) (hne : jobs ≠ [])
    (hjm : jm ∈ jobs)
    (hmax : ∀ j ∈ jobs, j ≠ jm → j.data.timestamp < jm.data.timestamp)
    (hempty : jm.data.instructions = some "") :
    (processMessages opts now runId runOk mid s t jobs).runInstructions =
      some opts.defaultInstructions := by
  rw [processMessages_unlocked opts now runId runOk mid s t jobs hlock]
  cases jobs with
  | nil => exact absurd rfl hne
  | cons j0 rest =>
    have hlast : (sortByTs (j0 :: rest)).getLastD j0 = jm :=
      sortByTs_getLastD_strictMax (j0 :: rest) j0 jm (by simp) hjm hmax
    show (pmBody _ _ _ _ _ _ _).runInstructions = _
    rw [pmBody_runInstructions, hlast, hempty]
    rfl

/-- Witness for claim C10: a concrete batch whose newest job has empty-string instructions runs with the default instructions. -/
theorem empty_instructions_fallback_witness :
    (processMessages exOpts 3000 "run1" true id exStateAE "T"
      [exJobA, exJobEmptyIns]).runInstructions =
      some exOpts.defaultInstructions :=
  processMessages_empty_instructions_fallback exOpts 3000 "run1" true id exStateAE "T"
    [exJobA, exJobEmptyIns] exJobEmptyIns (by decide) (by decide) (by decide)
    (by decide) rfl
